import Mathlib

/-!
Shallow embedding of `src/index.js` (a chat bot that scrapes a power-outage
schedule page, filters it to chosen feeder identifiers and renders outage
intervals as text).  JS objects are embedded as association lists
(`List (String × _)`), which preserves their iteration order; JS lookup
`obj[k]` becomes `List.find?` on the key.  The date-formatting call
`new Date(ms).toLocaleDateString` depends on the runtime locale and time
zone, so it is a parameter `fmtDate : Option Int → String` (`none` stands
for an invalid/NaN date).
-/

/-- Named character constants (used instead of literal quote/brace
characters inside the scanners below). -/
def lbraceC : Char := '\x7b'

def rbraceC : Char := '\x7d'

def lbrackC : Char := '['

def rbrackC : Char := ']'

def dquoteC : Char := '\x22'

def squoteC : Char := '\x27'

/-- Hour-Status-Map: a feeder's per-hour status object, e.g.
`("9", "no")` meaning no power during `[8,9)`. -/
abbrev HSM := List (String × String)

/-- Feeder map of one date: feeder identifier → Hour-Status-Map. -/
abbrev Feeders := List (String × HSM)

/-- ScheduleDocument: Unix-timestamp string → feeder map. -/
abbrev Doc := List (String × Feeders)

/-- JS object property read `obj[k]` on an association-list object:
first entry whose key equals `k` (JS objects have unique keys, so the
first match is the only one). -/
def hsmGet (ts : HSM) (k : String) : Option String :=
  (ts.find? (fun p => p.1 == k)).map (fun p => p.2)

/-- `timeSlots[hour.toString()] === 'no'` from `parseLightSchedule`
(src/index.js line 99-101).  A missing key gives `undefined`, and the
strict comparison with the string literal is then `false`. -/
def statusNo (ts : HSM) (hour : Nat) : Bool :=
  hsmGet ts (toString hour) == some "no"

/-- The accumulator object `{ start: hour - 1, end: hour }` of
`parseLightSchedule` (src/index.js lines 104-107).  The JS field `end`
is a Lean keyword, hence the field name `stop`. -/
structure Period where
  start : Nat
  stop : Nat
deriving DecidableEq, Repr

/-- The hour loop of `parseLightSchedule` (src/index.js lines 98-124):
scan the given hours in order, open a period `⟨hour-1, hour⟩` on a "no"
status, extend its `stop` while "no" continues, push it on the first
non-"no" hour, and push a still-open period after the scan. -/
def compressLoop (ts : HSM) : List Nat → Option Period → List Period
  | [], none => []
  | [], some p => [p]
  | hour :: hs, cur =>
    if statusNo ts hour then
      match cur with
      | none => compressLoop ts hs (some ⟨hour - 1, hour⟩)
      | some p => compressLoop ts hs (some ⟨p.start, hour⟩)
    else
      match cur with
      | none => compressLoop ts hs none
      | some p => p :: compressLoop ts hs none

/-- `noLightPeriods` computed for one feeder: the hour loop run over
hours 1..24 (src/index.js line 98: `for (let hour = 1; hour <= 24; hour++)`). -/
def compressPeriods (ts : HSM) : List Period :=
  compressLoop ts (List.range' 1 24) none

/-- The interval rendering of src/index.js lines 128-135;  the source
keeps a redundant single-hour branch that produces the same template,
mirrored here verbatim. -/
def periodText (p : Period) : String :=
  if p.stop - p.start == 1 then toString p.start ++ " - " ++ toString p.stop
  else toString p.start ++ " - " ++ toString p.stop

/-- Hour-Status-Map with status "no" at exactly hours 3, 4, 5 and 9. -/
def tsGap : HSM := [("3", "no"), ("4", "no"), ("5", "no"), ("9", "no")]

/-- Hour-Status-Map in which every hour "1".."24" has status "no". -/
def tsAllNo : HSM := (List.range' 1 24).map (fun h => (toString h, "no"))

/-- C4: for the map with "no" at exactly hours 3,4,5,9 the compressor
produces exactly the periods (2,5) and (8,9); the single-hour outage at
hour 9 renders "8 - 9" (start = hour-1), and the joined interval text is
"2 - 5, 8 - 9". -/
theorem compress_gap_c4 :
    compressPeriods tsGap = [⟨2, 5⟩, ⟨8, 9⟩]
    ∧ periodText ⟨8, 9⟩ = "8 - 9"
    ∧ String.intercalate ", " ((compressPeriods tsGap).map periodText) = "2 - 5, 8 - 9" := by
  refine ⟨by decide, rfl, by decide⟩

/-- C7: for the all-"no" Hour-Status-Map the compressor yields exactly one
period, rendered "0 - 24". -/
theorem compress_allNo_c7 :
    compressPeriods tsAllNo = [⟨0, 24⟩]
    ∧ String.intercalate ", " ((compressPeriods tsAllNo).map periodText) = "0 - 24" := by
  refine ⟨by decide, by decide⟩

/-- Loop invariant on the open accumulator of `compressLoop` when the next
hour to scan is `h`: an open period was opened or last extended at hour
`h - 1`, so its `stop` is `h - 1` and it is nonempty. -/
def curInvariant (h : Nat) : Option Period → Prop
  | none => True
  | some p => p.start < p.stop ∧ p.stop + 1 = h

/-- Lower bound on the `start` of every period the loop can still emit:
with no open period and next hour `h`, every later period starts at
`hour - 1 ≥ h - 1`; with an open period `p`, at `p.start`. -/
def lowBound (h : Nat) : Option Period → Nat
  | none => h - 1
  | some p => p.start

/-- Soundness of the hour loop: scanning hours `h, h+1, ..., h+n-1` with
`h ≥ 1` and `h + n ≤ 25` under the accumulator invariant yields only
periods with `start < stop ≤ 24` and `start` bounded below, pairwise in
strictly increasing, non-overlapping, non-adjacent order. -/
theorem compressLoop_sound (ts : HSM) :
    ∀ (n h : Nat) (cur : Option Period), 1 ≤ h → h + n ≤ 25 → curInvariant h cur →
      (∀ q ∈ compressLoop ts (List.range' h n) cur,
          q.start < q.stop ∧ q.stop ≤ 24 ∧ lowBound h cur ≤ q.start)
      ∧ (compressLoop ts (List.range' h n) cur).Pairwise
          (fun p q => p.stop < q.start) := by
  intro n
  induction n with
  | zero =>
    intro h cur h1 hle hinv
    cases cur with
    | none => simp [compressLoop, List.range']
    | some p =>
      obtain ⟨hps, hpe⟩ := hinv
      simp [compressLoop, List.range', lowBound]
      exact ⟨hps, by omega⟩
  | succ n ih =>
    intro h cur h1 hle hinv
    have hr : List.range' h (n + 1) = h :: List.range' (h + 1) n := rfl
    rw [hr]
    cases hst : statusNo ts h with
    | true =>
      cases cur with
      | none =>
        have hrec := ih (h + 1) (some ⟨h - 1, h⟩) (by omega) (by omega)
          ⟨by show h - 1 < h; omega, by show h + 1 = h + 1; rfl⟩
        simp only [compressLoop, hst, if_true]
        refine ⟨fun q hq => ?_, hrec.2⟩
        obtain ⟨hq1, hq2, hq3⟩ := hrec.1 q hq
        refine ⟨hq1, hq2, ?_⟩
        simp only [lowBound] at hq3 ⊢
        omega
      | some p =>
        obtain ⟨hps, hpe⟩ := hinv
        have hrec := ih (h + 1) (some ⟨p.start, h⟩) (by omega) (by omega)
          ⟨by show p.start < h; omega, by show h + 1 = h + 1; rfl⟩
        simp only [compressLoop, hst, if_true]
        refine ⟨fun q hq => ?_, hrec.2⟩
        obtain ⟨hq1, hq2, hq3⟩ := hrec.1 q hq
        exact ⟨hq1, hq2, hq3⟩
    | false =>
      cases cur with
      | none =>
        have hrec := ih (h + 1) none (by omega) (by omega) trivial
        simp only [compressLoop, hst, Bool.false_eq_true, if_false]
        refine ⟨fun q hq => ?_, hrec.2⟩
        obtain ⟨hq1, hq2, hq3⟩ := hrec.1 q hq
        refine ⟨hq1, hq2, ?_⟩
        simp only [lowBound] at hq3 ⊢
        omega
      | some p =>
        obtain ⟨hps, hpe⟩ := hinv
        have hrec := ih (h + 1) none (by omega) (by omega) trivial
        simp only [compressLoop, hst, Bool.false_eq_true, if_false]
        constructor
        · intro q hq
          rcases List.mem_cons.mp hq with hqp | hqrest
          · subst hqp
            exact ⟨hps, by omega, by simp [lowBound]⟩
          · obtain ⟨hq1, hq2, hq3⟩ := hrec.1 q hqrest
            refine ⟨hq1, hq2, ?_⟩
            simp only [lowBound] at hq3 ⊢
            omega
        · refine List.Pairwise.cons (fun q hqrest => ?_) hrec.2
          obtain ⟨hq1, hq2, hq3⟩ := hrec.1 q hqrest
          simp only [lowBound] at hq3
          omega

/-- C3: for every Hour-Status-Map the compressor's period list satisfies
`0 ≤ start < stop ≤ 24` for each period, and the list is pairwise
non-overlapping, strictly increasing and non-adjacent (maximal: adjacent
"no" runs are merged, so a closed period's `stop` is strictly below the
next period's `start`). -/
theorem compress_invariants (ts : HSM) :
    (∀ q ∈ compressPeriods ts, 0 ≤ q.start ∧ q.start < q.stop ∧ q.stop ≤ 24)
    ∧ (compressPeriods ts).Pairwise (fun p q => p.stop < q.start) := by
  have h := compressLoop_sound ts 24 1 none (by omega) (by omega) trivial
  refine ⟨fun q hq => ?_, h.2⟩
  obtain ⟨h1, h2, _⟩ := h.1 q hq
  exact ⟨Nat.zero_le _, h1, h2⟩

/-- Witness for C3: the invariants instantiated at the concrete map
`tsGap`, with the membership hypothesis discharged by computation. -/
theorem compress_invariants_witness :
    (0 ≤ 2 ∧ 2 < 5 ∧ 5 ≤ 24)
    ∧ (compressPeriods tsGap).Pairwise (fun p q => p.stop < q.start) :=
  ⟨(compress_invariants tsGap).1 ⟨2, 5⟩ (by decide), (compress_invariants tsGap).2⟩

/-- The hour loop queries the Hour-Status-Map only through `statusNo`, so
two maps with equal statuses on the scanned hours drive it identically. -/
theorem compressLoop_congr (ts1 ts2 : HSM) :
    ∀ (hs : List Nat) (cur : Option Period),
      (∀ h ∈ hs, statusNo ts1 h = statusNo ts2 h) →
      compressLoop ts1 hs cur = compressLoop ts2 hs cur := by
  intro hs
  induction hs with
  | nil => intro cur _; cases cur <;> rfl
  | cons a t ih =>
    intro cur hag
    have ha := hag a (List.mem_cons_self a t)
    have ht : ∀ h ∈ t, statusNo ts1 h = statusNo ts2 h :=
      fun h hh => hag h (List.mem_cons_of_mem a hh)
    cases cur with
    | none =>
      simp only [compressLoop, ha]
      cases statusNo ts2 a <;> simp [ih _ ht]
    | some p =>
      simp only [compressLoop, ha]
      cases statusNo ts2 a <;> simp [ih _ ht]

/-- C10: the compressor reads exactly the keys `"1"`..`"24"` (unpadded
decimal strings `hour.toString()` for hours 1..24): two Hour-Status-Maps
that agree under those 24 keys produce the same period list and the same
rendered interval text, so entries under any other key (e.g. "0", "25",
"09") never affect the result. -/
theorem compress_only_hour_keys (ts1 ts2 : HSM)
    (hag : ∀ h ∈ List.range' 1 24, hsmGet ts1 (toString h) = hsmGet ts2 (toString h)) :
    compressPeriods ts1 = compressPeriods ts2
    ∧ String.intercalate ", " ((compressPeriods ts1).map periodText)
        = String.intercalate ", " ((compressPeriods ts2).map periodText) := by
  have key : compressPeriods ts1 = compressPeriods ts2 :=
    compressLoop_congr ts1 ts2 (List.range' 1 24) none
      (fun h hh => by simp [statusNo, hag h hh])
  exact ⟨key, by rw [key]⟩

/-- Hour-Status-Map with "no" only under key "9". -/
def tsPlain : HSM := [("9", "no")]

/-- The same map surrounded by entries under keys the compressor never
reads: "0", zero-padded "09" and "25". -/
def tsNoisy : HSM := [("0", "no"), ("09", "no"), ("9", "no"), ("25", "no")]

/-- Witness for C10: the noisy map computes the same period list as the
plain one; the agreement hypothesis on keys "1".."24" is discharged by
computation. -/
theorem compress_only_hour_keys_witness :
    compressPeriods tsPlain = compressPeriods tsNoisy :=
  (compress_only_hour_keys tsPlain tsNoisy (by decide)).1

/-- `filterGPVKeys` from src/index.js lines 63-82: for every date key of
the document produce an entry (even when empty) whose feeder mapping
retains exactly the feeders listed in `keysToKeep`
(`keysToKeep.includes(gpvKey)`, exact string comparison), with their
Hour-Status-Maps unchanged. -/
def filterGPVKeys (obj : Doc) (keysToKeep : List String) : Doc :=
  obj.map (fun p => (p.1, p.2.filter (fun q => keysToKeep.contains q.1)))

/-- C5: the filter preserves the date-key list exactly; each input date
entry reappears with its feeder mapping filtered to `keepSet`; and a
feeder/HSM pair survives that filter iff it was present and its
identifier is a member of `keepSet` (so kept Hour-Status-Maps are
unchanged, and a date with no matching feeder keeps an empty entry). -/
theorem filterGPVKeys_spec (d : Doc) (S : List String) :
    ((filterGPVKeys d S).map Prod.fst = d.map Prod.fst)
    ∧ (∀ dk fs, (dk, fs) ∈ d →
        (dk, fs.filter (fun q => S.contains q.1)) ∈ filterGPVKeys d S)
    ∧ (∀ (fs : Feeders) (g : String) (hsm : HSM),
        (g, hsm) ∈ fs.filter (fun q => S.contains q.1) ↔ ((g, hsm) ∈ fs ∧ g ∈ S)) := by
  refine ⟨?_, ?_, ?_⟩
  · simp [filterGPVKeys]
  · intro dk fs hmem
    exact List.mem_map_of_mem (fun p => (p.1, p.2.filter (fun q => S.contains q.1))) hmem
  · intro fs g hsm
    simp [List.mem_filter]

/-- A two-date document used as concrete input for the filter claims. -/
def wDoc : Doc :=
  [("1700000000", [("GPV5.1", [("9", "no")]), ("GPV9.9", [("1", "no")])]),
   ("1700086400", [])]

/-- Witness for C5: at `wDoc` and keep set `["GPV5.1"]`, the first date's
entry reappears with only the kept feeder and its map unchanged; the
membership hypothesis is discharged by computation. -/
theorem filterGPVKeys_spec_witness :
    ("1700000000", [("GPV5.1", [("9", "no")])]) ∈ filterGPVKeys wDoc ["GPV5.1"] :=
  (filterGPVKeys_spec wDoc ["GPV5.1"]).2.1 "1700000000"
    [("GPV5.1", [("9", "no")]), ("GPV9.9", [("1", "no")])] (by decide)

/-- C6: the feeder filter is idempotent. -/
theorem filterGPVKeys_idem (d : Doc) (S : List String) :
    filterGPVKeys (filterGPVKeys d S) S = filterGPVKeys d S := by
  simp [filterGPVKeys, List.map_map, Function.comp, List.filter_filter]

/-- Scanner behind JS `String.prototype.includes`: does `pat` occur as a
contiguous substring (at any position, the empty pattern always occurs)? -/
def strContainsAux (pat : List Char) : List Char → Bool
  | [] => pat.isEmpty
  | c :: t => pat.isPrefixOf (c :: t) || strContainsAux pat t

/-- JS `s.includes(pat)`. -/
def strContains (s pat : String) : Bool :=
  strContainsAux pat.toList s.toList

/-- Split `cs` around the first (leftmost) occurrence of `pat`:
`some (before, after)` when `pat` occurs, `none` otherwise. -/
def splitFirst (pat : List Char) : List Char → Option (List Char × List Char)
  | [] => if pat.isEmpty then some ([], []) else none
  | c :: t =>
    if pat.isPrefixOf (c :: t) then some ([], (c :: t).drop pat.length)
    else
      match splitFirst pat t with
      | some (pre, post) => some (c :: pre, post)
      | none => none

/-- JS `s.replace(pat, rep)` with string arguments: replace only the
first occurrence of `pat` (anywhere in `s`, not only as a prefix);
`s` is returned unchanged when `pat` does not occur. -/
def jsReplaceFirst (s pat rep : String) : String :=
  match splitFirst pat.toList s.toList with
  | some (pre, post) => String.mk (pre ++ rep.toList ++ post)
  | none => s

/-- `scheduleName.replace('GPV', '')` from src/index.js line 137. -/
def feederSuffix (name : String) : String :=
  jsReplaceFirst name "GPV" ""

/-- Counterexample for C8: the identifier "XGPV1" does not start with
"GPV", yet the emitted suffix is "X1", not the unchanged identifier:
`replace` deletes the first occurrence anywhere, not only a prefix. -/
theorem feederSuffix_c8_counterexample :
    feederSuffix "XGPV1" = "X1"
    ∧ ("GPV".toList.isPrefixOf "XGPV1".toList) = false
    ∧ feederSuffix "XGPV1" ≠ "XGPV1" := by
  refine ⟨by decide, by decide, by decide⟩

/-- If `pat` occurs nowhere in `cs`, splitting on it fails. -/
theorem splitFirst_eq_none_of_not_contains (pat : List Char) :
    ∀ cs : List Char, strContainsAux pat cs = false → splitFirst pat cs = none := by
  intro cs
  induction cs with
  | nil =>
    intro hc
    simp only [strContainsAux] at hc
    simp [splitFirst, hc]
  | cons c t ih =>
    intro hc
    simp only [strContainsAux, Bool.or_eq_false_iff] at hc
    simp [splitFirst, hc.1, ih hc.2]

/-- C8 amended: the suffix written into the description line is the
identifier with its first occurrence of "GPV" deleted; when the
identifier starts with "GPV" this is exactly the prefix stripped, and
the identifier is unchanged when "GPV" occurs nowhere in it (but an
identifier containing "GPV" in a non-prefix position is also altered,
see the counterexample). -/
theorem feederSuffix_amended (s : String) :
    ("GPV".toList.isPrefixOf s.toList = true → feederSuffix s = String.mk (s.toList.drop 3))
    ∧ (strContains s "GPV" = false → feederSuffix s = s) := by
  constructor
  · intro hpre
    cases hs : s.toList with
    | nil => rw [hs] at hpre; exact absurd hpre (by decide)
    | cons c t =>
      rw [hs] at hpre
      simp only [feederSuffix, jsReplaceFirst, splitFirst, hs, hpre, if_true]
      simp
  · intro hnc
    simp only [strContains] at hnc
    simp only [feederSuffix, jsReplaceFirst, splitFirst_eq_none_of_not_contains _ _ hnc]

/-- Witness for C8's amended statement: prefix case on "GPV5.1" and
absent case on "OTHER", both hypotheses discharged by computation. -/
theorem feederSuffix_amended_witness :
    feederSuffix "GPV5.1" = "5.1" ∧ feederSuffix "OTHER" = "OTHER" :=
  ⟨(feederSuffix_amended "GPV5.1").1 (by decide), (feederSuffix_amended "OTHER").2 (by decide)⟩

/-- JS regex `\s` (the whitespace characters that occur in script text;
the exotic Unicode space family beyond NBSP is omitted — it cannot occur
in the pages this system scrapes). -/
def jsWhitespace (c : Char) : Bool :=
  c == ' ' || c == '\t' || c == '\n' || c == '\r' || c == '\x0b' || c == '\x0c' || c == ' '

/-- The marker substring of src/index.js line 32. -/
def markerChars : List Char := "DisconSchedule.fact".toList

/-- The namespace token of the regex lookahead on line 34. -/
def markerNsChars : List Char := "DisconSchedule.".toList

/-- The lookahead `(?=\s*DisconSchedule\.|\s*$)` of the extraction regex:
after optional whitespace, either the end of the script text or the next
`DisconSchedule.` statement begins. -/
def lookaheadOK (rest : List Char) : Bool :=
  let r := rest.dropWhile jsWhitespace
  r.isEmpty || markerNsChars.isPrefixOf r

/-- The lazy group `(\{[\s\S]*?\})` after its opening brace: extend the
match one character at a time, stopping at the first closing brace whose
remainder satisfies the lookahead.  `acc` holds the consumed characters
in reverse. -/
def lazyCapture : List Char → List Char → Option (List Char)
  | _, [] => none
  | acc, c :: rest =>
    if c == rbraceC && lookaheadOK rest then some ((c :: acc).reverse)
    else lazyCapture (c :: acc) rest

/-- One attempt of the extraction regex of src/index.js line 34 anchored
at the given position: the literal marker, `\s*`, `=`, `\s*`, then the
lazily captured brace group. -/
def matchAt (cs : List Char) : Option (List Char) :=
  if markerChars.isPrefixOf cs then
    match (cs.drop markerChars.length).dropWhile jsWhitespace with
    | '=' :: cs2 =>
      match cs2.dropWhile jsWhitespace with
      | b :: body => if b == lbraceC then lazyCapture [lbraceC] body else none
      | [] => none
    | _ => none
  else none

/-- `txt.match(regex)` for the extraction regex: leftmost position whose
anchored attempt succeeds, scanning left to right. -/
def findFactAssign : List Char → Option (List Char)
  | [] => none
  | c :: t =>
    match matchAt (c :: t) with
    | some g => some g
    | none => findFactAssign t

/-- The captured group `m[1]` of src/index.js line 35 (object literal
including its outer braces), if the regex matches. -/
def factRegexMatch (txt : String) : Option String :=
  (findFactAssign txt.toList).map String.mk

/-- Normalization step 1 (src/index.js line 41): replace every single
quote by a double quote. -/
def replaceQuotes (cs : List Char) : List Char :=
  cs.map (fun c => if c == squoteC then dquoteC else c)

/-- Regex `\w` = `[a-zA-Z0-9_]` (`Char.isAlpha`/`Char.isDigit` are
ASCII-only, matching the character class exactly). -/
def isWordChar (c : Char) : Bool :=
  c.isAlpha || c.isDigit || c == '_'

/-- Normalization step 2 (src/index.js line 43): the global replace of
`(\b[a-zA-Z0-9_]+)\s*:` by `"$1":`.  At each position with a word
boundary, a maximal word run followed by optional whitespace and a colon
is rewritten to the quoted run plus colon (the matched whitespace is
dropped, as the replacement omits it); scanning resumes after the match.
`prevIsWord` tracks the word-ness of the preceding character for the
boundary test.  The structural fuel only bounds the number of scan
steps. -/
def quoteKeysAux : Nat → List Char → Bool → List Char
  | 0, cs, _ => cs
  | _ + 1, [], _ => []
  | fuel + 1, c :: t, prevIsWord =>
    if isWordChar c && !prevIsWord then
      match (t.dropWhile isWordChar).dropWhile jsWhitespace with
      | ':' :: rest3 =>
        dquoteC :: ((c :: t.takeWhile isWordChar) ++
          dquoteC :: ':' :: quoteKeysAux fuel rest3 false)
      | _ => c :: quoteKeysAux fuel t (isWordChar c)
    else c :: quoteKeysAux fuel t (isWordChar c)

/-- The scan of `quoteKeysAux` started with enough fuel: every step both
spends one fuel unit and strictly shortens the character list, so
`length + 1` units can never run out. -/
def quoteKeys (cs : List Char) (prevIsWord : Bool) : List Char :=
  quoteKeysAux (cs.length + 1) cs prevIsWord

/-- The whole normalization of `objStr` (src/index.js lines 41-43). -/
def normalizeObjStr (s : String) : String :=
  String.mk (quoteKeys (replaceQuotes s.toList) false)

/-- JSON values, as produced by the platform `JSON.parse`. -/
inductive Json where
  | null
  | bool (b : Bool)
  | num (n : Int)
  | str (s : String)
  | arr (elems : List Json)
  | obj (fields : List (String × Json))

/-- JSON insignificant whitespace. -/
def jsonWs (c : Char) : Bool :=
  c == ' ' || c == '\t' || c == '\n' || c == '\r'

/-- JSON string literal body after the opening quote, with the common
escapes (`\u` escapes are outside the modelled fragment and fail). -/
def parseStrLitAux : List Char → List Char → Except Unit (String × List Char)
  | _, [] => .error ()
  | acc, c :: rest =>
    if c == dquoteC then .ok (String.mk acc.reverse, rest)
    else if c == '\\' then
      match rest with
      | [] => .error ()
      | e :: rest2 =>
        if e == dquoteC then parseStrLitAux (dquoteC :: acc) rest2
        else if e == '\\' then parseStrLitAux ('\\' :: acc) rest2
        else if e == '/' then parseStrLitAux ('/' :: acc) rest2
        else if e == 'n' then parseStrLitAux ('\n' :: acc) rest2
        else if e == 't' then parseStrLitAux ('\t' :: acc) rest2
        else if e == 'r' then parseStrLitAux ('\r' :: acc) rest2
        else if e == 'b' then parseStrLitAux ('\x08' :: acc) rest2
        else if e == 'f' then parseStrLitAux ('\x0c' :: acc) rest2
        else .error ()
    else parseStrLitAux (c :: acc) rest

/-- Decimal digit run to a number. -/
def digitsToNat (ds : List Char) : Nat :=
  ds.foldl (fun acc c => acc * 10 + (c.toNat - 48)) 0

/-- JSON number token (integers; fraction/exponent forms are outside the
modelled fragment and fail — schedule blobs contain no such numbers). -/
def parseNumTok (cs : List Char) : Except Unit (Json × List Char) :=
  let ds := cs.takeWhile Char.isDigit
  let rest := cs.dropWhile Char.isDigit
  if ds.isEmpty then .error ()
  else
    match rest with
    | d :: _ =>
      if d == '.' || d == 'e' || d == 'E' then .error ()
      else .ok (.num (Int.ofNat (digitsToNat ds)), rest)
    | [] => .ok (.num (Int.ofNat (digitsToNat ds)), [])

mutual

/-- Recursive-descent model of `JSON.parse` on the grammar fragment this
program's data blobs use: one value, returning the unconsumed rest.
`fuel` bounds the recursion depth and member count and is chosen large
enough at the top level. -/
def parseVal : Nat → List Char → Except Unit (Json × List Char)
  | 0, _ => .error ()
  | fuel + 1, cs =>
    match cs.dropWhile jsonWs with
    | [] => .error ()
    | c :: rest =>
      if c == lbraceC then parseObjBody fuel rest
      else if c == lbrackC then parseArrBody fuel rest
      else if c == dquoteC then
        match parseStrLitAux [] rest with
        | .ok (s, r) => .ok (.str s, r)
        | .error e => .error e
      else if c == 't' then
        if "rue".toList.isPrefixOf rest then .ok (.bool true, rest.drop 3) else .error ()
      else if c == 'f' then
        if "alse".toList.isPrefixOf rest then .ok (.bool false, rest.drop 4) else .error ()
      else if c == 'n' then
        if "ull".toList.isPrefixOf rest then .ok (.null, rest.drop 3) else .error ()
      else if c == '-' then
        match parseNumTok rest with
        | .ok (.num n, r) => .ok (.num (-n), r)
        | _ => .error ()
      else if c.isDigit then parseNumTok (c :: rest)
      else .error ()

/-- Object body right after the opening brace. -/
def parseObjBody : Nat → List Char → Except Unit (Json × List Char)
  | 0, _ => .error ()
  | fuel + 1, cs =>
    match cs.dropWhile jsonWs with
    | c :: rest =>
      if c == rbraceC then .ok (.obj [], rest) else parseMembers fuel (c :: rest) []
    | [] => .error ()

/-- Nonempty member list of an object; `acc` holds parsed members in
reverse. -/
def parseMembers : Nat → List Char → List (String × Json) → Except Unit (Json × List Char)
  | 0, _, _ => .error ()
  | fuel + 1, cs, acc =>
    match cs with
    | c :: rest =>
      if c == dquoteC then
        match parseStrLitAux [] rest with
        | .ok (key, r1) =>
          match r1.dropWhile jsonWs with
          | ':' :: r2 =>
            match parseVal fuel r2 with
            | .ok (v, r3) =>
              match r3.dropWhile jsonWs with
              | ',' :: r4 => parseMembers fuel (r4.dropWhile jsonWs) ((key, v) :: acc)
              | c2 :: r4 =>
                if c2 == rbraceC then .ok (.obj ((key, v) :: acc).reverse, r4)
                else .error ()
              | [] => .error ()
            | .error e => .error e
          | _ => .error ()
        | .error e => .error e
      else .error ()
    | [] => .error ()

/-- Array body right after the opening bracket. -/
def parseArrBody : Nat → List Char → Except Unit (Json × List Char)
  | 0, _ => .error ()
  | fuel + 1, cs =>
    match cs.dropWhile jsonWs with
    | c :: rest =>
      if c == rbrackC then .ok (.arr [], rest) else parseElems fuel (c :: rest) []
    | [] => .error ()

/-- Nonempty element list of an array; `acc` holds parsed elements in
reverse. -/
def parseElems : Nat → List Char → List Json → Except Unit (Json × List Char)
  | 0, _, _ => .error ()
  | fuel + 1, cs, acc =>
    match parseVal fuel cs with
    | .ok (v, r1) =>
      match r1.dropWhile jsonWs with
      | ',' :: r2 => parseElems fuel r2 (v :: acc)
      | c2 :: r2 => if c2 == rbrackC then .ok (.arr (v :: acc).reverse, r2) else .error ()
      | [] => .error ()
    | .error e => .error e

end

/-- `JSON.parse(objStr)` of src/index.js line 47: a single value with
nothing but whitespace after it. -/
def jsonParse (s : String) : Except Unit Json :=
  match parseVal (3 * s.toList.length + 3) s.toList with
  | .ok (v, rest) => if (rest.dropWhile jsonWs).isEmpty then .ok v else .error ()
  | .error e => .error e

/-- The script-scanning loop of `fetchShutdowns` (src/index.js lines
29-61), over the text contents of the page's scripts in document order:
skip scripts without the marker, try the regex, normalize and
`JSON.parse` the captured object literal, fall back to dynamic
evaluation of the raw capture (`Function(...)`, line 53 — an external
facility, passed in as `evalFb`; an exception from it propagates).  When
no script yields a match the function logs and returns `undefined`
(modelled `.ok none`): a distinguished absent result, not an error. -/
def fetchShutdownsScan (evalFb : String → Except Unit Json) :
    List String → Except Unit (Option Json)
  | [] => .ok none
  | txt :: rest =>
    if strContains txt "DisconSchedule.fact" then
      match factRegexMatch txt with
      | some objStr =>
        match jsonParse (normalizeObjStr objStr) with
        | .ok data => .ok (some data)
        | .error _ =>
          match evalFb objStr with
          | .ok data => .ok (some data)
          | .error e => .error e
      | none => fetchShutdownsScan evalFb rest
    else fetchShutdownsScan evalFb rest

/-- C9: when no script's text contains the marker substring, the
extractor returns the distinguished absent result (`.ok none`, the
logged `undefined` return of line 60) and raises no error, for any
behaviour of the dynamic-evaluation fallback. -/
theorem fetchShutdowns_noMarker (evalFb : String → Except Unit Json)
    (scripts : List String)
    (h : ∀ t ∈ scripts, strContains t "DisconSchedule.fact" = false) :
    fetchShutdownsScan evalFb scripts = .ok none := by
  induction scripts with
  | nil => rfl
  | cons t ts ih =>
    have ht := h t (List.mem_cons_self t ts)
    simp only [fetchShutdownsScan, ht, Bool.false_eq_true, if_false]
    exact ih (fun x hx => h x (List.mem_cons_of_mem t hx))

/-- Witness for C9: a page with two marker-free scripts, the hypothesis
discharged by computation. -/
theorem fetchShutdowns_noMarker_witness :
    fetchShutdownsScan (fun _ => .error ()) ["<p>hello</p>", "var x = 1;"] = .ok none :=
  fetchShutdowns_noMarker (fun _ => .error ()) ["<p>hello</p>", "var x = 1;"] (by decide)

/-- JS `parseInt(s)` on the decimal strings used as date keys: skip
leading whitespace, optional sign, then the leading digit run; `none`
models `NaN` (no digits).  The hexadecimal `0x` auto-detection of
`parseInt` is outside the modelled fragment — date keys are decimal. -/
def parseIntJS (s : String) : Option Int :=
  let cs := s.toList.dropWhile jsWhitespace
  match cs with
  | '-' :: rest =>
    let ds := rest.takeWhile Char.isDigit
    if ds.isEmpty then none else some (-(Int.ofNat (digitsToNat ds)))
  | '+' :: rest =>
    let ds := rest.takeWhile Char.isDigit
    if ds.isEmpty then none else some (Int.ofNat (digitsToNat ds))
  | _ =>
    let ds := cs.takeWhile Char.isDigit
    if ds.isEmpty then none else some (Int.ofNat (digitsToNat ds))

/-- The template literal of src/index.js line 137 for one emitted line. -/
def scheduleLine (formattedDate scheduleName : String) (ps : List Period) : String :=
  "Дата " ++ formattedDate ++ ", график " ++ feederSuffix scheduleName ++
    ", света не будет в такие промежутки: " ++
    String.intercalate ", " (ps.map periodText)

/-- The `results` array of `parseLightSchedule` (src/index.js lines
84-141): per date (in document order) format the date from
`parseInt(timestamp) * 1000` through the environment's `fmtDate`, then
per feeder compress the hours and emit one line when at least one period
exists (silent feeders produce no line). -/
def parseLightScheduleList (fmtDate : Option Int → String) (data : Doc) : List String :=
  data.flatMap (fun entry =>
    let formattedDate := fmtDate ((parseIntJS entry.1).map (fun n => n * 1000))
    entry.2.filterMap (fun sched =>
      let ps := compressPeriods sched.2
      if ps.isEmpty then none
      else some (scheduleLine formattedDate sched.1 ps)))

/-- `parseLightSchedule` returns `results.join('\n')` (line 142). -/
def parseLightSchedule (fmtDate : Option Int → String) (data : Doc) : String :=
  String.intercalate "\n" (parseLightScheduleList fmtDate data)

/-- An Hour-Status-Map read back from a parsed JSON object whose values
are all strings (the shape of schedule blobs). -/
def hsmOfJson : Json → Option HSM
  | .obj l => l.mapM (fun p => match p.2 with | .str s => some (p.1, s) | _ => none)
  | _ => none

/-- A feeder map read back from parsed JSON. -/
def feedersOfJson : Json → Option Feeders
  | .obj l => l.mapM (fun p => (hsmOfJson p.2).map (fun h => (p.1, h)))
  | _ => none

/-- A ScheduleDocument read back from parsed JSON. -/
def docOfJson : Json → Option Doc
  | .obj l => l.mapM (fun p => (feedersOfJson p.2).map (fun f => (p.1, f)))
  | _ => none

/-- The single script text of C1's scenario page:
`DisconSchedule.fact = {'1700000000': {'GPV5.1': {'9':'no','10':'no','11':'yes'}}}`. -/
def c1Script : String :=
  "DisconSchedule.fact = \x7b\x271700000000\x27: \x7b\x27GPV5.1\x27: \x7b\x279\x27:\x27no\x27,\x2710\x27:\x27no\x27,\x2711\x27:\x27yes\x27\x7d\x7d\x7d"

/-- The parsed value the extractor produces for `c1Script`. -/
def c1Json : Json :=
  .obj [("1700000000",
    .obj [("GPV5.1",
      .obj [("9", .str "no"), ("10", .str "no"), ("11", .str "yes")])])]

/-- The same value as a typed ScheduleDocument. -/
def c1Doc : Doc :=
  [("1700000000", [("GPV5.1", [("9", "no"), ("10", "no"), ("11", "yes")])])]

/-- C1: on a page whose one script assigns the scenario blob, the
extractor parses exactly `c1Json` (without invoking the evaluation
fallback), and filtering with keep set `["GPV5.1"]` then compressing
yields exactly one output line whose interval text is "8 - 10" and whose
date is `fmtDate` of 1700000000 · 1000 milliseconds. -/
theorem report_flow_c1 (fmtDate : Option Int → String)
    (evalFb : String → Except Unit Json) :
    fetchShutdownsScan evalFb [c1Script] = .ok (some c1Json)
    ∧ docOfJson c1Json = some c1Doc
    ∧ parseLightScheduleList fmtDate (filterGPVKeys c1Doc ["GPV5.1"]) =
        ["Дата " ++ fmtDate (some 1700000000000) ++ ", график " ++ "5.1" ++
          ", света не будет в такие промежутки: " ++ "8 - 10"] :=
  ⟨rfl, rfl, rfl⟩

/-- JS property read `v.k` on a parsed JSON value: key lookup on an
object; `undefined` (`none`) otherwise (no built-in property of a
primitive is named "data" or "status"). -/
def jsGetField : Json → String → Option Json
  | .obj l, k => (l.find? (fun p => p.1 == k)).map (fun p => p.2)
  | _, _ => none

/-- JS truthiness of a parsed JSON value. -/
def truthy : Json → Bool
  | .null => false
  | .bool b => b
  | .num n => n != 0
  | .str s => !(s == "")
  | .arr _ => true
  | .obj _ => true

/-- JS strict equality `v === 'lit'` with a string literal. -/
def jsStrictEqStr (v : Json) (lit : String) : Bool :=
  match v with
  | .str t => t == lit
  | _ => false

mutual

/-- JS string coercion `${v}` of a parsed JSON value. -/
def jsDisplay : Json → String
  | .null => "null"
  | .bool true => "true"
  | .bool false => "false"
  | .num n => toString n
  | .str s => s
  | .obj _ => "[object Object]"
  | .arr l => jsDisplayList l

/-- JS array-to-string coercion: elements joined by commas. -/
def jsDisplayList : List Json → String
  | [] => ""
  | [x] => jsDisplay x
  | x :: y :: t => jsDisplay x ++ "," ++ jsDisplayList (y :: t)

end

/-- Outcome of the `/start` handler body after the fetch succeeded
(src/index.js lines 157-187): which reply the user receives. -/
inductive HandlerOutcome where
  | emptyApi
  | apiStatus (s : String)
  | report (text : String)
deriving DecidableEq

/-- The report branch of the handler (lines 174-175): filter `data.data`
with the hard-coded keep set, compress and render.  The typed read-back
`docOfJson` bridges the parsed JSON to the document shape the filter
iterates over (an unreadable shape contributes no entries). -/
def runReport (fmtDate : Option Int → String) (dd : Json) : HandlerOutcome :=
  .report (parseLightSchedule fmtDate
    (filterGPVKeys ((docOfJson dd).getD []) ["GPV5.1", "GPV3.2"]))

/-- The guard chain of the `/start` handler (src/index.js lines 157-175):
`data = await fetchShutdowns(...)`; reply "Пустой ответ от API." and
return when `!data?.data` (fetch returned `undefined`, the field is
absent, or its value is falsy); reply with the status when
`data.status && data.status !== 'ok'`; otherwise run the report branch
on `data.data`. -/
def startHandler (fmtDate : Option Int → String) (data : Option Json) : HandlerOutcome :=
  match data with
  | none => .emptyApi
  | some d =>
    match jsGetField d "data" with
    | none => .emptyApi
    | some dd =>
      if truthy dd then
        match jsGetField d "status" with
        | some st =>
          if truthy st && !(jsStrictEqStr st "ok") then .apiStatus (jsDisplay st)
          else runReport fmtDate dd
        | none => runReport fmtDate dd
      else .emptyApi

/-- Unix-timestamp-string shape of a ScheduleDocument's top-level keys:
a nonempty run of decimal digits. -/
def isTimestampKey (s : String) : Bool :=
  !(s.toList.isEmpty) && s.toList.all Char.isDigit

/-- C2: for every value of ScheduleDocument shape — a JSON object whose
top-level keys are Unix-timestamp strings — the handler replies
"Пустой ответ от API." and returns: no timestamp key can spell "data",
so `data.data` is `undefined` and the guard fires before `filterGPVKeys`
or `parseLightSchedule` (reached only in the `report` outcome) is ever
invoked. -/
theorem startHandler_scheduleDoc_empty (fmtDate : Option Int → String)
    (l : List (String × Json)) (hkeys : ∀ p ∈ l, isTimestampKey p.1 = true) :
    startHandler fmtDate (some (.obj l)) = .emptyApi := by
  have hfind : l.find? (fun p => p.1 == "data") = none := by
    rw [List.find?_eq_none]
    intro p hp hbeq
    have hk := hkeys p hp
    have heq : p.1 = "data" := by simpa using hbeq
    rw [heq] at hk
    exact absurd hk (by decide)
  simp [startHandler, jsGetField, hfind]

/-- Witness for C2: a one-date ScheduleDocument, the key-shape hypothesis
discharged by computation. -/
theorem startHandler_scheduleDoc_empty_witness :
    startHandler (fun _ => "")
      (some (.obj [("1700000000", .obj [("GPV5.1", .obj [("9", .str "no")])])]))
      = .emptyApi :=
  startHandler_scheduleDoc_empty (fun _ => "")
    [("1700000000", .obj [("GPV5.1", .obj [("9", .str "no")])])] (by decide)
